import Mathlib

/-!
Verification development for the chunking / flattening / embedding-store /
aggregation pipeline of `Models/Malay DL Models/BERT_Ori.py`.

The external tokenizer and encoder are opaque collaborators; they are modelled
as abstract functions.  Token ids are `Nat`, labels are `Int` (the script
casts them to 32-bit integers when writing the store, modelled by `toInt32`),
and prediction probabilities are modelled as exact rationals `ℚ`.
-/

/-- External tokenizer boundary: `encode` produces the raw token-id sequence
(the script calls `tokenizer.encode(text, add_special_tokens=True)`), and the
two reserved marker ids are `cls_token_id` / `sep_token_id`. -/
structure Tokenizer (Text : Type) where
  encode : Text → List Nat
  cls_token_id : Nat
  sep_token_id : Nat

/-- Fuel-indexed worker for `splitWindows`; the fuel makes the recursion
structural so that the kernel can evaluate it on concrete inputs. -/
def swFuel (k : Nat) : Nat → List Nat → List (List Nat)
  | 0, _ => []
  | _ + 1, [] => []
  | fuel + 1, x :: xs => (x :: xs.take k) :: swFuel k fuel (xs.drop k)

/-- Contiguous non-overlapping windows of size `k + 1`: the Lean rendering of
`[tokenized[i:i+a] for i in range(0, len(tokenized), a)]` with step
`a = k + 1 > 0`.  Characterised by `splitWindows_nil` and `splitWindows_cons`. -/
def splitWindows (k : Nat) (l : List Nat) : List (List Nat) :=
  swFuel k l.length l

lemma swFuel_fuel_irrel (k : Nat) :
    ∀ f1 : Nat, ∀ f2 : Nat, ∀ l : List Nat, l.length ≤ f1 → l.length ≤ f2 →
      swFuel k f1 l = swFuel k f2 l := by
  intro f1
  induction f1 with
  | zero =>
    intro f2 l h1 h2
    have hnil : l = [] := List.eq_nil_of_length_eq_zero (Nat.le_zero.mp h1)
    subst hnil
    cases f2 <;> rfl
  | succ f1 ih =>
    intro f2 l h1 h2
    match l with
    | [] => cases f2 <;> rfl
    | x :: xs =>
      match f2 with
      | 0 => simp at h2
      | f2 + 1 =>
        simp only [swFuel]
        have hx : (xs.drop k).length ≤ f1 := by
          simp only [List.length_drop]
          simp only [List.length_cons] at h1
          omega
        have hy : (xs.drop k).length ≤ f2 := by
          simp only [List.length_drop]
          simp only [List.length_cons] at h2
          omega
        rw [ih f2 (xs.drop k) hx hy]

@[simp] lemma splitWindows_nil (k : Nat) : splitWindows k [] = [] := rfl

lemma splitWindows_cons (k : Nat) (x : Nat) (xs : List Nat) :
    splitWindows k (x :: xs) = (x :: xs.take k) :: splitWindows k (xs.drop k) := by
  show swFuel k (xs.length + 1) (x :: xs) = _
  simp only [swFuel]
  rw [swFuel_fuel_irrel k xs.length (xs.drop k).length (xs.drop k)
    (by simp only [List.length_drop]; omega) le_rfl]
  rfl

/-- Embedding of `tokenize_and_chunk(text, tokenizer, max_length)`
(BERT_Ori.py lines 98-110).  `adjusted_max_length = max_length - 10`; the
Python `range(0, len(tokenized), adjusted_max_length)` raises `ValueError`
when the step is zero (modelled as `none`) and is empty when the step is
negative (so the comprehension yields no chunks). -/
def tokenize_and_chunk {Text : Type} (text : Text) (tokenizer : Tokenizer Text)
    (max_length : Nat) : Option (List (List Nat)) :=
  let tokenized := tokenizer.encode text
  let adjusted_max_length : Int := (max_length : Int) - 10
  if adjusted_max_length = 0 then
    none
  else if adjusted_max_length < 0 then
    some []
  else
    some ((splitWindows (adjusted_max_length.toNat - 1) tokenized).map
      fun w => tokenizer.cls_token_id :: (w ++ [tokenizer.sep_token_id]))

lemma splitWindows_flatten (k : Nat) (T : List Nat) :
    (splitWindows k T).flatten = T := by
  suffices H : ∀ n : Nat, ∀ T : List Nat, T.length ≤ n →
      (splitWindows k T).flatten = T from H T.length T le_rfl
  intro n
  induction n with
  | zero =>
    intro T hT
    have hnil : T = [] := List.eq_nil_of_length_eq_zero (Nat.le_zero.mp hT)
    subst hnil
    simp
  | succ n ih =>
    intro T hT
    match T with
    | [] => simp
    | x :: xs =>
      rw [splitWindows_cons]
      have hlen : (xs.drop k).length ≤ n := by
        simp only [List.length_drop]
        simp only [List.length_cons] at hT
        omega
      rw [List.flatten_cons, ih (xs.drop k) hlen, List.cons_append,
        List.take_append_drop]

lemma splitWindows_mem {k : Nat} {T w : List Nat} (h : w ∈ splitWindows k T) :
    w.length ≤ k + 1 := by
  suffices H : ∀ n : Nat, ∀ T : List Nat, T.length ≤ n → ∀ w ∈ splitWindows k T,
      w.length ≤ k + 1 from H T.length T le_rfl w h
  intro n
  induction n with
  | zero =>
    intro T hT w hw
    have hnil : T = [] := List.eq_nil_of_length_eq_zero (Nat.le_zero.mp hT)
    subst hnil
    simp at hw
  | succ n ih =>
    intro T hT w hw
    match T with
    | [] => simp at hw
    | x :: xs =>
      rw [splitWindows_cons] at hw
      rcases List.mem_cons.mp hw with h1 | h2
      · subst h1
        simp only [List.length_cons, List.length_take]
        omega
      · exact ih (xs.drop k)
          (by simp only [List.length_drop]; simp only [List.length_cons] at hT; omega)
          w h2

lemma splitWindows_ne_nil {k : Nat} {T : List Nat} (h : T ≠ []) :
    splitWindows k T ≠ [] := by
  match T with
  | [] => exact absurd rfl h
  | x :: xs => rw [splitWindows_cons]; exact List.cons_ne_nil _ _

lemma splitWindows_short {k : Nat} {T : List Nat} (h1 : T ≠ [])
    (h2 : T.length ≤ k + 1) : splitWindows k T = [T] := by
  match T with
  | [] => exact absurd rfl h1
  | x :: xs =>
    rw [splitWindows_cons]
    have hxs : xs.length ≤ k := by
      simp only [List.length_cons] at h2; omega
    rw [List.take_of_length_le hxs, List.drop_eq_nil_of_le hxs]
    simp

lemma map_wrap_unwrap (cls sep : Nat) (l : List (List Nat)) :
    ((l.map fun w => cls :: (w ++ [sep])).map fun c => c.tail.dropLast) = l := by
  induction l with
  | nil => simp
  | cons w l ih => simp [ih, List.dropLast_concat]

/-- C3 (amended): for every token-id sequence `T` and every `max_length`
strictly greater than the reserved 10-slot margin, stripping the prepended
start marker and the appended end marker from each chunk of
`tokenize_and_chunk` and concatenating the payload windows in chunk order
reproduces `T` exactly.  (For `max_length ≤ 10` the chunker either raises or
yields no chunks, so the round trip fails there.) -/
theorem chunk_roundtrip_pos_payload {Text : Type} (tokenizer : Tokenizer Text)
    (text : Text) (max_length : Nat) (hL : 10 < max_length) :
    (tokenize_and_chunk text tokenizer max_length).map
        (fun chunks => (chunks.map fun c => c.tail.dropLast).flatten) =
      some (tokenizer.encode text) := by
  unfold tokenize_and_chunk
  have h0 : ¬ ((max_length : Int) - 10 = 0) := by omega
  have h1 : ¬ ((max_length : Int) - 10 < 0) := by omega
  rw [if_neg h0, if_neg h1]
  simp only [Option.map_some']
  rw [map_wrap_unwrap, splitWindows_flatten]

/-- Witness for `chunk_roundtrip_pos_payload` at `T = [1,2,3]`,
`max_length = 512`. -/
theorem chunk_roundtrip_pos_payload_witness :
    10 < 512 ∧
    (tokenize_and_chunk ([1, 2, 3] : List Nat) ⟨fun t => t, 101, 102⟩ 512).map
        (fun chunks => (chunks.map fun c => c.tail.dropLast).flatten) =
      some ([1, 2, 3] : List Nat) :=
  ⟨by decide, chunk_roundtrip_pos_payload ⟨fun t => t, 101, 102⟩ [1, 2, 3] 512 (by decide)⟩

/-- Counterexample to C3 as frozen: at `T = [0]` and `max_length = 5` the
adjusted step is negative, the Python range is empty, so the chunker returns
zero chunks and the unwrap-and-concatenate round trip yields `[]`, not `[0]`. -/
theorem chunk_roundtrip_fails_small_max_length :
    (tokenize_and_chunk ([0] : List Nat) ⟨fun t => t, 101, 102⟩ 5).map
        (fun chunks => (chunks.map fun c => c.tail.dropLast).flatten) =
      some ([] : List Nat) ∧ ([] : List Nat) ≠ [0] := by
  exact ⟨by decide, by decide⟩

/-- C4 (confirmed): every chunk produced by the chunker has length at most
`max_length`, begins with the start-marker id, ends with the end-marker id,
and its payload (the tokens strictly between the two markers) has length at
most `max_length - 10`. -/
theorem chunk_bounds {Text : Type} (tokenizer : Tokenizer Text) (text : Text)
    (max_length : Nat) (chunks : List (List Nat)) (c : List Nat)
    (hsome : tokenize_and_chunk text tokenizer max_length = some chunks)
    (hmem : c ∈ chunks) :
    c.length ≤ max_length ∧ c.head? = some tokenizer.cls_token_id ∧
      c.getLast? = some tokenizer.sep_token_id ∧
      c.tail.dropLast.length ≤ max_length - 10 := by
  unfold tokenize_and_chunk at hsome
  by_cases h0 : (max_length : Int) - 10 = 0
  · rw [if_pos h0] at hsome
    exact absurd hsome (by simp)
  · rw [if_neg h0] at hsome
    by_cases h1 : (max_length : Int) - 10 < 0
    · rw [if_pos h1] at hsome
      have : chunks = [] := by
        simpa using hsome.symm
      subst this
      simp at hmem
    · rw [if_neg h1] at hsome
      have hML : 10 < max_length := by omega
      have hchunks := (Option.some.injEq _ _).mp hsome
      subst hchunks
      obtain ⟨w, hw, rfl⟩ := List.mem_map.mp hmem
      have hwlen : w.length ≤ (((max_length : Int) - 10).toNat - 1) + 1 :=
        splitWindows_mem hw
      have htoNat : ((max_length : Int) - 10).toNat = max_length - 10 := by omega
      rw [htoNat] at hwlen
      have hwlen10 : w.length ≤ max_length - 10 := by omega
      refine ⟨?_, ?_, ?_, ?_⟩
      · simp only [List.length_cons, List.length_append, List.length_cons,
          List.length_nil]
        omega
      · rfl
      · rw [show tokenizer.cls_token_id :: (w ++ [tokenizer.sep_token_id]) =
          (tokenizer.cls_token_id :: w) ++ [tokenizer.sep_token_id] from rfl]
        exact List.getLast?_concat _
      · rw [List.tail_cons, List.dropLast_concat]
        exact hwlen10

/-- Witness for `chunk_bounds` at `T = [1,2,3]`, `max_length = 512`. -/
theorem chunk_bounds_witness :
    tokenize_and_chunk ([1, 2, 3] : List Nat) ⟨fun t => t, 101, 102⟩ 512 =
        some [[101, 1, 2, 3, 102]] ∧
    ([101, 1, 2, 3, 102] : List Nat) ∈ [[101, 1, 2, 3, 102]] ∧
    (([101, 1, 2, 3, 102] : List Nat).length ≤ 512 ∧
      ([101, 1, 2, 3, 102] : List Nat).head? = some 101 ∧
      ([101, 1, 2, 3, 102] : List Nat).getLast? = some 102 ∧
      ([101, 1, 2, 3, 102] : List Nat).tail.dropLast.length ≤ 512 - 10) :=
  ⟨by decide, by decide,
    chunk_bounds ⟨fun t => t, 101, 102⟩ [1, 2, 3] 512 [[101, 1, 2, 3, 102]]
      [101, 1, 2, 3, 102] (by decide) (by decide)⟩

/-- C8 (amended): for every nonempty token-id sequence and every `max_length`
above the 10-slot margin, chunking yields at least one chunk, and a nonempty
sequence no longer than the payload length `max_length - 10` yields exactly
one chunk.  (A zero-token sequence yields zero chunks, not a marker-only
chunk: the Python range over an empty sequence is empty.) -/
theorem chunk_count_nonempty {Text : Type} (tokenizer : Tokenizer Text)
    (text : Text) (max_length : Nat) (hL : 10 < max_length)
    (hne : tokenizer.encode text ≠ []) :
    tokenize_and_chunk text tokenizer max_length ≠ none ∧
    tokenize_and_chunk text tokenizer max_length ≠ some [] ∧
    ((tokenizer.encode text).length ≤ max_length - 10 →
      (tokenize_and_chunk text tokenizer max_length).map List.length = some 1) := by
  unfold tokenize_and_chunk
  have h0 : ¬ ((max_length : Int) - 10 = 0) := by omega
  have h1 : ¬ ((max_length : Int) - 10 < 0) := by omega
  rw [if_neg h0, if_neg h1]
  refine ⟨by simp, ?_, ?_⟩
  · intro hcontra
    have hmapnil := (Option.some.injEq _ _).mp hcontra
    exact splitWindows_ne_nil hne (List.map_eq_nil_iff.mp hmapnil)
  · intro hshort
    rw [splitWindows_short hne
      (by omega : (tokenizer.encode text).length ≤
        ((((max_length : Int) - 10).toNat - 1) + 1))]
    simp

/-- Witness for `chunk_count_nonempty` at `T = [1,2]`, `max_length = 512`. -/
theorem chunk_count_nonempty_witness :
    10 < 512 ∧
    (Tokenizer.mk (fun t : List Nat => t) 101 102).encode [1, 2] ≠ [] ∧
    (tokenize_and_chunk ([1, 2] : List Nat) ⟨fun t => t, 101, 102⟩ 512 ≠ none ∧
      tokenize_and_chunk ([1, 2] : List Nat) ⟨fun t => t, 101, 102⟩ 512 ≠ some [] ∧
      (((Tokenizer.mk (fun t : List Nat => t) 101 102).encode [1, 2]).length ≤ 512 - 10 →
        (tokenize_and_chunk ([1, 2] : List Nat) ⟨fun t => t, 101, 102⟩ 512).map
          List.length = some 1)) :=
  ⟨by decide, by decide,
    chunk_count_nonempty ⟨fun t => t, 101, 102⟩ [1, 2] 512 (by decide) (by decide)⟩

/-- Counterexample to C8 as frozen: a zero-token sequence yields zero chunks
(the claim demanded at least one marker-only chunk). -/
theorem chunk_empty_input_yields_no_chunks :
    tokenize_and_chunk ([] : List Nat) ⟨fun t => t, 101, 102⟩ 512 = some [] := by
  decide

/-- Embedding of `flatten_chunks(texts, labels)` (BERT_Ori.py lines 128-138).
The Python `zip` silently truncates to the shorter input; for each zipped
pair the loop appends every chunk together with that pair's label.  The final
`assert len(all_texts) == len(all_labels)` is modelled by returning `none`
when the compared lengths differ. -/
def flatten_chunks {α β : Type} (texts : List (List α)) (labels : List β) :
    Option (List α × List β) :=
  let pairs := texts.zip labels
  let all_texts := (pairs.map fun p => p.1).flatten
  let all_labels := (pairs.map fun p => p.1.map fun _ => p.2).flatten
  if all_texts.length = all_labels.length then
    some (all_texts, all_labels)
  else
    none

lemma zip_flatten_length {α β : Type} (pairs : List (List α × β)) :
    ((pairs.map fun p => p.1).flatten).length =
      ((pairs.map fun p => p.1.map fun _ => p.2).flatten).length := by
  induction pairs with
  | nil => rfl
  | cons p ps ih => simp [ih]

lemma map_fst_zip_take {α β : Type} :
    ∀ (l1 : List α) (l2 : List β), (l1.zip l2).map Prod.fst = l1.take l2.length := by
  intro l1
  induction l1 with
  | nil => intro l2; simp
  | cons x xs ih =>
    intro l2
    match l2 with
    | [] => rfl
    | y :: ys => simp [List.zip_cons_cons, ih ys]

/-- C2 (confirmed): on equal-length inputs `flatten_chunks` succeeds and
returns parallel sequences of common length equal to the total chunk count;
the chunks are exactly the concatenation of the chunk sets in input order,
and the label sequence repeats each chunk set's label once per chunk of that
set, so the i-th output label is the label of the chunk set the i-th output
chunk came from. -/
theorem flatten_chunks_aligned {α β : Type} (texts : List (List α))
    (labels : List β) (h : texts.length = labels.length) :
    flatten_chunks texts labels =
      some (texts.flatten,
        ((texts.zip labels).map fun p => List.replicate p.1.length p.2).flatten) ∧
    texts.flatten.length =
      (((texts.zip labels).map fun p => List.replicate p.1.length p.2).flatten).length ∧
    texts.flatten.length = (texts.map List.length).sum := by
  have hfst : (texts.zip labels).map (fun p => p.1) = texts := by
    have := List.map_fst_zip texts labels h.le
    simpa using this
  have hrep : ((texts.zip labels).map fun p => p.1.map fun _ => p.2) =
      (texts.zip labels).map fun p => List.replicate p.1.length p.2 :=
    List.map_congr_left fun p _ => List.map_const' p.1 p.2
  have hlen := zip_flatten_length (texts.zip labels)
  have h1 : flatten_chunks texts labels =
      some (((texts.zip labels).map fun p => p.1).flatten,
        ((texts.zip labels).map fun p => p.1.map fun _ => p.2).flatten) := by
    unfold flatten_chunks
    rw [if_pos hlen]
  refine ⟨?_, ?_, List.length_flatten texts⟩
  · rw [h1, hfst, hrep]
  · conv_lhs => rw [← hfst]
    conv_rhs => rw [← hrep]
    exact hlen

/-- Witness for `flatten_chunks_aligned` at `texts = [[1],[2,3]]`,
`labels = [10,20]`. -/
theorem flatten_chunks_aligned_witness :
    ([[1], [2, 3]] : List (List Nat)).length = ([10, 20] : List Nat).length ∧
    (flatten_chunks ([[1], [2, 3]] : List (List Nat)) ([10, 20] : List Nat) =
        some (([[1], [2, 3]] : List (List Nat)).flatten,
          ((([[1], [2, 3]] : List (List Nat)).zip ([10, 20] : List Nat)).map
            fun p => List.replicate p.1.length p.2).flatten) ∧
      ([[1], [2, 3]] : List (List Nat)).flatten.length =
        (((([[1], [2, 3]] : List (List Nat)).zip ([10, 20] : List Nat)).map
          fun p => List.replicate p.1.length p.2).flatten).length ∧
      ([[1], [2, 3]] : List (List Nat)).flatten.length =
        (([[1], [2, 3]] : List (List Nat)).map List.length).sum) :=
  ⟨by decide, flatten_chunks_aligned [[1], [2, 3]] [10, 20] (by decide)⟩

/-- C5 (amended): on inputs of unequal length `flatten_chunks` does not fail;
the zip silently truncates to the first `min` pairs, the extra chunk sets or
labels are dropped, the internal length assertion passes, and the chunk
output is the concatenation of only the first `len(labels)` chunk sets. -/
theorem flatten_chunks_truncates_on_mismatch {α β : Type}
    (texts : List (List α)) (labels : List β) :
    ∃ ch lb, flatten_chunks texts labels = some (ch, lb) ∧
      ch.length = lb.length ∧ ch = (texts.take labels.length).flatten := by
  have hlen := zip_flatten_length (texts.zip labels)
  refine ⟨((texts.zip labels).map fun p => p.1).flatten,
    ((texts.zip labels).map fun p => p.1.map fun _ => p.2).flatten, ?_, hlen, ?_⟩
  · unfold flatten_chunks
    rw [if_pos hlen]
  · have htake : (texts.zip labels).map (fun p => p.1) = texts.take labels.length := by
      simpa using map_fst_zip_take texts labels
    rw [htake]

/-- Counterexample to C5 as frozen: with 2 chunk sets and 1 label the claim
demands a `ShapeError` failure, but `flatten_chunks` silently truncates and
returns a value. -/
theorem flatten_chunks_no_error_on_mismatch :
    flatten_chunks ([[1], [2]] : List (List Nat)) ([10] : List Nat) =
      some ([1], [10]) := by
  decide

/-- Model of `np.mean` over a slice of predictions: the arithmetic mean for a
nonempty slice, and `none` (standing for the NaN that numpy returns with a
warning) for an empty slice.  Probabilities are modelled as exact rationals. -/
def np_mean (l : List ℚ) : Option ℚ :=
  if l.isEmpty then none else some (l.sum / l.length)

/-- Loop of `aggregate_predictions` with its running start index `idx`; the
Python slice `predictions[idx:idx+num_chunks]` is `(drop idx).take num`. -/
def aggGo {α : Type} (predictions : List ℚ) :
    List (List α) → Nat → List (Option ℚ)
  | [], _ => []
  | chunks :: rest, idx =>
      np_mean ((predictions.drop idx).take chunks.length) ::
        aggGo predictions rest (idx + chunks.length)

/-- Embedding of `aggregate_predictions(text_chunks, predictions)`
(BERT_Ori.py lines 142-149): one averaged value per entry of `text_chunks`,
consuming `len(chunks)` predictions per entry, with no shape check. -/
def aggregate_predictions {α : Type} (text_chunks : List (List α))
    (predictions : List ℚ) : List (Option ℚ) :=
  aggGo predictions text_chunks 0

lemma aggGo_length {α : Type} (predictions : List ℚ) :
    ∀ (texts : List (List α)) (idx : Nat),
      (aggGo predictions texts idx).length = texts.length := by
  intro texts
  induction texts with
  | nil => intro idx; rfl
  | cons c rest ih => intro idx; simp [aggGo, ih]

lemma aggGo_getElem? {α : Type} (predictions : List ℚ) :
    ∀ (texts : List (List α)) (idx i : Nat),
      (aggGo predictions texts idx)[i]? = (texts[i]?).map fun c =>
        np_mean ((predictions.drop
          (idx + ((texts.take i).map List.length).sum)).take c.length) := by
  intro texts
  induction texts with
  | nil => intro idx i; simp [aggGo]
  | cons c rest ih =>
    intro idx i
    match i with
    | 0 => simp [aggGo]
    | i + 1 =>
      simp only [aggGo, List.getElem?_cons_succ, List.take_succ_cons,
        List.map_cons, List.sum_cons]
      rw [ih (idx + c.length) i]
      rw [show idx + c.length + ((rest.take i).map List.length).sum =
        idx + (c.length + ((rest.take i).map List.length).sum) from by omega]

lemma take_sum_le {α : Type} :
    ∀ (texts : List (List α)) (i : Nat) (c : List α), texts[i]? = some c →
      ((texts.take i).map List.length).sum + c.length ≤
        (texts.map List.length).sum := by
  intro texts
  induction texts with
  | nil => intro i c h; simp at h
  | cons t rest ih =>
    intro i c h
    match i with
    | 0 =>
      simp only [List.getElem?_cons_zero, Option.some.injEq] at h
      subst h
      simp only [List.take_zero, List.map_nil, List.sum_nil, Nat.zero_add,
        List.map_cons, List.sum_cons]
      omega
    | i + 1 =>
      simp only [List.getElem?_cons_succ] at h
      have := ih i c h
      simp only [List.take_succ_cons, List.map_cons, List.sum_cons]
      omega

/-- C9 (confirmed): when the chunk counts sum to the number of predictions,
`aggregate_predictions` returns one value per document in input order, and
the i-th value is the arithmetic mean of the contiguous slice of predictions
of length `c_i` starting right after the previous document's slice; in
particular on counts `[2,3]` and predictions `[0.1,0.9,0.2,0.4,0.6]` it
returns `[0.5, 0.4]`. -/
theorem aggregate_means_correct {α : Type} (text_chunks : List (List α))
    (predictions : List ℚ)
    (h : (text_chunks.map List.length).sum = predictions.length) :
    (aggregate_predictions text_chunks predictions).length = text_chunks.length ∧
    (∀ i c, text_chunks[i]? = some c →
      (aggregate_predictions text_chunks predictions)[i]? =
        some (np_mean ((predictions.drop
          (((text_chunks.take i).map List.length).sum)).take c.length)) ∧
      ((predictions.drop
          (((text_chunks.take i).map List.length).sum)).take c.length).length =
        c.length) ∧
    aggregate_predictions ([[0, 0], [0, 0, 0]] : List (List Nat))
        [1/10, 9/10, 2/10, 4/10, 6/10] = [some (1/2), some (2/5)] := by
  refine ⟨aggGo_length predictions text_chunks 0, ?_, ?_⟩
  · intro i c hc
    constructor
    · rw [show aggregate_predictions text_chunks predictions =
        aggGo predictions text_chunks 0 from rfl]
      rw [aggGo_getElem? predictions text_chunks 0 i, hc]
      simp
    · have hle := take_sum_le text_chunks i c hc
      simp only [List.length_take, List.length_drop]
      omega
  · show aggGo _ _ 0 = _
    simp only [aggGo, np_mean]
    norm_num

/-- Witness for `aggregate_means_correct` on counts `[2,3]` and predictions
`[0.1,0.9,0.2,0.4,0.6]`. -/
theorem aggregate_means_correct_witness :
    (([[0, 0], [0, 0, 0]] : List (List Nat)).map List.length).sum =
      ([1/10, 9/10, 2/10, 4/10, 6/10] : List ℚ).length ∧
    aggregate_predictions ([[0, 0], [0, 0, 0]] : List (List Nat))
        [1/10, 9/10, 2/10, 4/10, 6/10] = [some (1/2), some (2/5)] :=
  ⟨by rfl,
    (aggregate_means_correct [[0, 0], [0, 0, 0]]
      [1/10, 9/10, 2/10, 4/10, 6/10] (by rfl)).2.2⟩

/-- C7 (amended): `aggregate_predictions` performs no shape check: for every
input pair, mismatched or not, it returns exactly one value per entry of
`text_chunks` without failing, silently truncating slices that run past the
available predictions; in particular on counts `[2,2]` with only the three
predictions `[0.1,0.2,0.3]` it returns `[0.15, 0.3]`, not a `ShapeError`. -/
theorem aggregate_no_shape_check :
    (∀ (α : Type) (text_chunks : List (List α)) (predictions : List ℚ),
      (aggregate_predictions text_chunks predictions).length =
        text_chunks.length) ∧
    aggregate_predictions ([[0, 0], [0, 0]] : List (List Nat))
        [1/10, 2/10, 3/10] = [some (3/20), some (3/10)] := by
  constructor
  · intro α texts preds
    exact aggGo_length preds texts 0
  · show aggGo _ _ 0 = _
    simp only [aggGo, np_mean]
    norm_num

/-- Counterexample to C7 as frozen: on counts `[2,2]` with three predictions
the claim demands a `ShapeError` failure, but `aggregate_predictions`
silently truncates the second slice to `[0.3]` and returns two means. -/
theorem aggregate_mismatch_returns_means :
    aggregate_predictions ([[0, 0], [0, 0]] : List (List Nat))
        [1/10, 2/10, 3/10] = [some (3/20), some (3/10)] := by
  show aggGo _ _ 0 = _
  simp only [aggGo, np_mean]
  norm_num

/-- Two's-complement 32-bit wrap performed by
`np.array(all_labels, dtype=np.int32)`: the constants are `2^31` and `2^32`. -/
def toInt32 (n : Int) : Int :=
  (n + 2147483648) % 4294967296 - 2147483648

/-- A store file is a flat sequence of self-describing numpy array blocks.
A block is a list of cells; a cell is either one embedding row (`Sum.inl`,
the `(1, 768)` float array the encoder returns for one chunk) or one 32-bit
label (`Sum.inr`).  `np.concatenate` along axis 0 is `List.flatten`. -/
abbrev Block (E : Type) := List (E ⊕ Int)

/-- Loop of `vectorize_text`: walks the zipped `(text, label)` stream with
running index `i`, buffers embeddings and labels, and whenever
`(i + 1) % batch_size == 0` or the final of the `num_texts` elements is
processed flushes the two buffers as one embedding block followed by one
label block.  Returns the blocks appended to the file and the Python
function's return value (the label buffer left over after the loop). -/
def vtGo {T E : Type} (embed : T → E) (batch_size num_texts : Nat) :
    List (T × Int) → Nat → List E → List Int → List (Block E) × List Int
  | [], _, _, lbuf => ([], lbuf)
  | (t, l) :: rest, i, buf, lbuf =>
    if (i + 1) % batch_size = 0 ∨ i + 1 = num_texts then
      let r := vtGo embed batch_size num_texts rest (i + 1) [] []
      (((buf ++ [embed t]).map Sum.inl) ::
        ((lbuf ++ [l]).map fun x => Sum.inr (toInt32 x)) :: r.1, r.2)
    else
      vtGo embed batch_size num_texts rest (i + 1) (buf ++ [embed t]) (lbuf ++ [l])

/-- Embedding of `vectorize_text(texts, labels, filename, batch_size)`
(BERT_Ori.py lines 152-173) against a fresh destination file.  The external
pipeline `bert_model.vectorize([tokenizer.decode(text)])` is the abstract
`embed`.  `num_texts = len(texts)`; Python `zip` truncates to the shorter
input.  Python `%` by a zero `batch_size` raises `ZeroDivisionError`,
modelled as `none`. -/
def vectorize_text {T E : Type} (embed : T → E) (texts : List T)
    (labels : List Int) (batch_size : Nat) :
    Option (List (Block E) × List Int) :=
  if batch_size = 0 then
    none
  else
    some (vtGo embed batch_size texts.length (texts.zip labels) 0 [] [])

/-- Pairing loop of `load_embeddings_and_labels`: reads consecutive
(embedding-block, label-block) pairs until fewer than two blocks remain.
When only one block remains, the second `np.load` raises `EOFError`, which
the `except EOFError: break` catches, so the odd trailing block is silently
discarded. -/
def readGo {E : Type} : List (Block E) → List (Block E) × List (Block E)
  | b1 :: b2 :: rest =>
      let r := readGo rest
      (b1 :: r.1, b2 :: r.2)
  | _ => ([], [])

/-- Embedding of `load_embeddings_and_labels(file_path)` (BERT_Ori.py lines
176-188): collects block pairs, then concatenates the embedding blocks and
the label blocks.  `np.concatenate` raises `ValueError` on an empty list of
arrays, modelled as `none`. -/
def load_embeddings_and_labels {E : Type} (file : List (Block E)) :
    Option (List (E ⊕ Int) × List (E ⊕ Int)) :=
  let r := readGo file
  if r.1.isEmpty then none else some (r.1.flatten, r.2.flatten)

lemma vtGo_spec {T E : Type} (embed : T → E) (bs : Nat) :
    ∀ pairs : List (T × Int), pairs ≠ [] →
      ∀ (nt i : Nat) (buf : List E) (lbuf : List Int), nt = i + pairs.length →
        (readGo (vtGo embed bs nt pairs i buf lbuf).1).1 ≠ [] ∧
        ((readGo (vtGo embed bs nt pairs i buf lbuf).1).1).flatten =
          (buf ++ pairs.map fun p => embed p.1).map Sum.inl ∧
        ((readGo (vtGo embed bs nt pairs i buf lbuf).1).2).flatten =
          (lbuf ++ pairs.map Prod.snd).map fun x => Sum.inr (toInt32 x) := by
  intro pairs
  induction pairs with
  | nil => intro h; exact absurd rfl h
  | cons p rest ih =>
    intro _ nt i buf lbuf hnt
    obtain ⟨t, l⟩ := p
    by_cases hflush : (i + 1) % bs = 0 ∨ i + 1 = nt
    · rcases eq_or_ne rest [] with hrest | hrest
      · subst hrest
        simp only [vtGo, if_pos hflush]
        refine ⟨by simp [readGo], ?_, ?_⟩
        · simp [readGo]
        · simp [readGo]
      · have ihr := ih hrest nt (i + 1) [] []
          (by simp only [List.length_cons] at hnt; omega)
        simp only [vtGo, if_pos hflush]
        refine ⟨by simp [readGo], ?_, ?_⟩
        · simp only [readGo, List.flatten_cons]
          rw [ihr.2.1]
          simp
        · simp only [readGo, List.flatten_cons]
          rw [ihr.2.2]
          simp
    · have hrest : rest ≠ [] := by
        intro hr
        subst hr
        simp only [List.length_cons, List.length_nil] at hnt
        exact hflush (Or.inr (by omega))
      simp only [vtGo, if_neg hflush]
      have ihr := ih hrest nt (i + 1) (buf ++ [embed t]) (lbuf ++ [l])
        (by simp only [List.length_cons] at hnt; omega)
      refine ⟨ihr.1, ?_, ?_⟩
      · rw [ihr.2.1]
        simp
      · rw [ihr.2.2]
        simp

/-- C1 (amended): for every nonempty sequence of (embedding, label) pairs
with labels representable in 32-bit (the pipeline's labels are 0/1) and
every positive batch size, writing the sequence to a fresh destination with
`vectorize_text` and then reading it back with `load_embeddings_and_labels`
returns exactly the original embeddings and labels in the original order,
without the reader knowing the batch size.  (The empty sequence is excluded:
it produces an empty store, which the reader cannot load.) -/
theorem store_roundtrip_nonempty {T E : Type} (embed : T → E) (texts : List T)
    (labels : List Int) (batch_size : Nat) (hne : texts ≠ [])
    (hlen : texts.length = labels.length) (hb : 0 < batch_size)
    (hlab : ∀ l ∈ labels, -2147483648 ≤ l ∧ l < 2147483648) :
    (vectorize_text embed texts labels batch_size).map
        (fun r => load_embeddings_and_labels r.1) =
      some (some ((texts.map fun t => Sum.inl (embed t)),
        labels.map fun l => (Sum.inr l : E ⊕ Int))) := by
  unfold vectorize_text
  rw [if_neg hb.ne']
  simp only [Option.map_some']
  have hlz : (texts.zip labels).length = texts.length := by
    rw [List.length_zip, ← hlen, Nat.min_self]
  have hzne : texts.zip labels ≠ [] := by
    intro h
    apply hne
    apply List.eq_nil_of_length_eq_zero
    rw [← hlz, h]
    rfl
  have hnt : texts.length = 0 + (texts.zip labels).length := by
    rw [hlz]
    omega
  obtain ⟨h1, h2, h3⟩ :=
    vtGo_spec embed batch_size (texts.zip labels) hzne texts.length 0 [] [] hnt
  unfold load_embeddings_and_labels
  rw [if_neg (by simp [List.isEmpty_iff, h1])]
  simp only [Option.some.injEq, Prod.mk.injEq]
  refine ⟨?_, ?_⟩
  · rw [h2]
    have c1 : ((texts.zip labels).map fun p => embed p.1) = texts.map embed := by
      conv_rhs => rw [← List.map_fst_zip texts labels hlen.le]
      rw [List.map_map]
      rfl
    rw [List.nil_append, c1, List.map_map]
    rfl
  · rw [h3]
    rw [List.nil_append, List.map_snd_zip texts labels hlen.ge]
    refine List.map_congr_left fun l hl => ?_
    have hrange := hlab l hl
    have : toInt32 l = l := by
      unfold toInt32
      omega
    rw [this]

/-- Witness for `store_roundtrip_nonempty`: three records, batch size 2. -/
theorem store_roundtrip_nonempty_witness :
    (([7, 8, 9] : List Nat) ≠ []) ∧
    ([7, 8, 9] : List Nat).length = ([1, 0, 1] : List Int).length ∧
    0 < 2 ∧
    (∀ l ∈ ([1, 0, 1] : List Int), -2147483648 ≤ l ∧ l < 2147483648) ∧
    (vectorize_text (fun n : Nat => n) [7, 8, 9] [1, 0, 1] 2).map
        (fun r => load_embeddings_and_labels r.1) =
      some (some ((([7, 8, 9] : List Nat).map fun t => Sum.inl ((fun n : Nat => n) t)),
        ([1, 0, 1] : List Int).map fun l => (Sum.inr l : Nat ⊕ Int))) :=
  ⟨by decide, by decide, by decide, by decide,
    store_roundtrip_nonempty (fun n : Nat => n) [7, 8, 9] [1, 0, 1] 2
      (by decide) (by decide) (by decide) (by decide)⟩

/-- Counterexample to C1 as frozen: writing the empty sequence of pairs
succeeds and appends no blocks, but reading the resulting empty store fails
(`np.concatenate` on an empty list) instead of returning the original empty
data. -/
theorem store_write_empty_then_read_fails :
    (vectorize_text (fun n : Nat => n) ([] : List Nat) ([] : List Int) 1).map
        (fun r => load_embeddings_and_labels r.1) = some none ∧
    some (none : Option (List (Nat ⊕ Int) × List (Nat ⊕ Int))) ≠
      some (some (([] : List (Nat ⊕ Int)), ([] : List (Nat ⊕ Int)))) := by
  exact ⟨by decide, by decide⟩

lemma readGo_append_even {E : Type} (extra : Block E) :
    ∀ file : List (Block E), file.length % 2 = 0 →
      readGo (file ++ [extra]) = readGo file := by
  suffices H : ∀ n : Nat, ∀ file : List (Block E), file.length ≤ n →
      file.length % 2 = 0 → readGo (file ++ [extra]) = readGo file from
    fun file h => H file.length file le_rfl h
  intro n
  induction n with
  | zero =>
    intro file h1 h2
    have hnil : file = [] := List.eq_nil_of_length_eq_zero (Nat.le_zero.mp h1)
    subst hnil
    rfl
  | succ n ih =>
    intro file h1 h2
    match file with
    | [] => rfl
    | [b] => simp at h2
    | b1 :: b2 :: rest =>
      simp only [List.cons_append, readGo, List.append_eq]
      rw [ih rest (by simp only [List.length_cons] at h1; omega)
        (by simp only [List.length_cons] at h2; omega)]

/-- C6 (amended): a trailing partial batch-pair is silently ignored, not
rejected: appending one unpaired block to any store with an even number of
blocks leaves the reader's result unchanged (the `except EOFError` swallows
the odd block).  On a well-formed nonempty source written by
`vectorize_text` the reader succeeds and returns embedding and label arrays
whose common record count equals the number of records written. -/
theorem load_store_ignores_trailing_block {T E : Type} (embed : T → E) :
    (∀ (file : List (Block E)) (extra : Block E), file.length % 2 = 0 →
      load_embeddings_and_labels (file ++ [extra]) =
        load_embeddings_and_labels file) ∧
    (∀ (texts : List T) (labels : List Int) (batch_size : Nat),
      texts ≠ [] → texts.length = labels.length → 0 < batch_size →
      ∃ file ret, vectorize_text embed texts labels batch_size =
          some (file, ret) ∧
        ∃ es ls, load_embeddings_and_labels file = some (es, ls) ∧
          es.length = texts.length ∧ ls.length = texts.length) := by
  constructor
  · intro file extra heven
    unfold load_embeddings_and_labels
    rw [readGo_append_even extra file heven]
  · intro texts labels batch_size hne hlen hb
    have hlz : (texts.zip labels).length = texts.length := by
      rw [List.length_zip, ← hlen, Nat.min_self]
    have hzne : texts.zip labels ≠ [] := by
      intro h
      apply hne
      apply List.eq_nil_of_length_eq_zero
      rw [← hlz, h]
      rfl
    have hnt : texts.length = 0 + (texts.zip labels).length := by
      rw [hlz]
      omega
    obtain ⟨h1, h2, h3⟩ :=
      vtGo_spec embed batch_size (texts.zip labels) hzne texts.length 0 [] [] hnt
    refine ⟨(vtGo embed batch_size texts.length (texts.zip labels) 0 [] []).1,
      (vtGo embed batch_size texts.length (texts.zip labels) 0 [] []).2, ?_, ?_⟩
    · unfold vectorize_text
      rw [if_neg hb.ne']
    · unfold load_embeddings_and_labels
      rw [if_neg (by simp [List.isEmpty_iff, h1])]
      refine ⟨_, _, rfl, ?_, ?_⟩
      · rw [h2]
        simp [hlz]
      · rw [h3]
        simp [hlz]

/-- Witness for `load_store_ignores_trailing_block`: a two-block store plus
one unpaired trailing block, and a one-record well-formed store. -/
theorem load_store_ignores_trailing_block_witness :
    (([[Sum.inl 5], [Sum.inr 1]] : List (Block Nat)).length % 2 = 0) ∧
    load_embeddings_and_labels
        (([[Sum.inl 5], [Sum.inr 1]] : List (Block Nat)) ++ [[Sum.inl 6]]) =
      load_embeddings_and_labels
        ([[Sum.inl 5], [Sum.inr 1]] : List (Block Nat)) ∧
    (([7] : List Nat) ≠ [] ∧ ([7] : List Nat).length = ([1] : List Int).length ∧
      0 < 3) ∧
    (∃ file ret, vectorize_text (fun n : Nat => n) [7] [1] 3 =
        some (file, ret) ∧
      ∃ es ls, load_embeddings_and_labels file = some (es, ls) ∧
        es.length = ([7] : List Nat).length ∧
        ls.length = ([7] : List Nat).length) :=
  ⟨by decide,
    (load_store_ignores_trailing_block (fun n : Nat => n)).1
      [[Sum.inl 5], [Sum.inr 1]] [Sum.inl 6] (by decide),
    ⟨by decide, by decide, by decide⟩,
    (load_store_ignores_trailing_block (fun n : Nat => n)).2
      [7] [1] 3 (by decide) (by decide) (by decide)⟩

/-- Counterexample to C6 as frozen: a source ending in a trailing unpaired
embedding block is read back successfully (the odd block is silently
dropped), instead of failing with a `CorruptStoreError`. -/
theorem load_store_trailing_block_succeeds :
    load_embeddings_and_labels
        ([[Sum.inl 5], [Sum.inr 1], [Sum.inl 6]] : List (Block Nat)) =
      some ([Sum.inl 5], [Sum.inr 1]) := by
  decide

/-- C10 (confirmed): reading a store that contains zero batch-pairs raises
(np.concatenate over an empty list of blocks, modelled as `none`) instead of
returning empty embedding and label arrays. -/
theorem load_empty_store_fails (E : Type) :
    load_embeddings_and_labels ([] : List (Block E)) = none := rfl
